import Mathlib

/-!
Verification development for the LabHub repository's spatial-query core:
the linear-BVH builder and ray/capsule collision engine
(`controller/src/enhancements/map_loader.rs`), the grenade trajectory
simulator (`controller/src/enhancements/grenade_trajectory.rs`), and the
joint-matrix resolution of the skinned-mesh renderer
(`controller/src/enhancements/player/model_renderer.rs`).

Modelling conventions:
* `f32` scalars are idealized as exact rationals (`ℚ`); decimal literals of
  the source are read exactly.  `sqrt` (used by `nalgebra`'s `norm`) is
  modelled by `ratSqrt`, which returns the exact square root whenever the
  argument is the square of a rational, and `0` otherwise; every claim that
  is settled by concrete evaluation only ever takes square roots of perfect
  squares, and every universally quantified theorem below is insensitive to
  the value returned on non-squares.
* The slab ray/AABB test divides by ray-direction components that may be
  zero; in `f32` this produces `±inf` (and `NaN` through `0 * inf`), which
  the test relies on.  These extended values are modelled faithfully by the
  type `FVal` below, with Rust's `f32::min` / `f32::max` / comparison
  semantics.  (`ℚ` has no negative zero; a `0.0` direction component is
  modelled as `+0.0`, which is what `end - start` produces in IEEE
  round-to-nearest arithmetic.)
* Rust `Vec<T>` becomes `List T`; indexing that would panic in Rust is
  modelled by `Option`-returning accessors (a `none` marks the panic).
* `u32` / `u16` node fields are modelled as `ℕ`; the meshes in question are
  far below the overflow thresholds.
-/

/-- A 3-component vector of exact rationals, modelling `nalgebra::Vector3<f32>`. -/
structure Vec3 where
  x : ℚ
  y : ℚ
  z : ℚ
deriving DecidableEq, Repr

def Vec3.add (a b : Vec3) : Vec3 := ⟨a.x + b.x, a.y + b.y, a.z + b.z⟩

def Vec3.sub (a b : Vec3) : Vec3 := ⟨a.x - b.x, a.y - b.y, a.z - b.z⟩

def Vec3.neg (a : Vec3) : Vec3 := ⟨-a.x, -a.y, -a.z⟩

def Vec3.scale (a : Vec3) (k : ℚ) : Vec3 := ⟨a.x * k, a.y * k, a.z * k⟩

def Vec3.dot (a b : Vec3) : ℚ := a.x * b.x + a.y * b.y + a.z * b.z

def Vec3.cross (a b : Vec3) : Vec3 :=
  ⟨a.y * b.z - a.z * b.y, a.z * b.x - a.x * b.z, a.x * b.y - a.y * b.x⟩

/-- Squared Euclidean norm (`nalgebra`'s `norm_squared`). -/
def Vec3.normSq (a : Vec3) : ℚ := a.dot a

/-- Integer Newton iteration for square roots, with explicit fuel so that the
kernel can evaluate it (the library's `Nat.sqrt` is defined by well-founded
recursion and does not reduce definitionally).  The iteration decreases
strictly until the floor square root is reached, so any fuel at least the
actual iteration count gives the same answer. -/
def sqrtIter (n : ℕ) : ℕ → ℕ → ℕ
  | 0, guess => guess
  | fuel + 1, guess =>
    let next := (guess + n / guess) / 2
    if next < guess then sqrtIter n fuel next else guess

/-- Floor integer square root by Newton iteration (kernel-evaluable). -/
def natSqrt (n : ℕ) : ℕ := if n ≤ 1 then n else sqrtIter n n n

/-- Exact square root on `ℚ`: the (unique, nonnegative) exact root when the
argument is a square of a rational, `0` otherwise (the guard below checks
exactness, so a wrong `natSqrt` value could never produce a wrong root).
Models `f32::sqrt` on the inputs this development evaluates it at (perfect
squares). -/
def ratSqrt (q : ℚ) : ℚ :=
  if q ≤ 0 then 0
  else
    let n := q.num.toNat
    let d := q.den
    if natSqrt n * natSqrt n = n ∧ natSqrt d * natSqrt d = d then
      (natSqrt n : ℚ) / (natSqrt d : ℚ)
    else 0

/-- `nalgebra`'s `norm`: square root of the squared norm. -/
def Vec3.norm (a : Vec3) : ℚ := ratSqrt a.normSq

/-- `nalgebra`'s `normalize`: `v / ‖v‖`.  (With `ratSqrt` returning `0` on a
non-square, the result degenerates to the zero vector; the source would
produce non-finite components there.  All uses in settled claims have exact
rational norms.) -/
def Vec3.normalize (a : Vec3) : Vec3 := a.scale (1 / a.norm)

/-- An IEEE-style `f32` value as needed by the slab test: `NaN`, `±inf`, or a
finite (exact rational) value. -/
inductive FVal where
  | nan : FVal
  | pinf : FVal
  | ninf : FVal
  | fin : ℚ → FVal
deriving DecidableEq, Repr

/-- `1.0f32 / b` for finite `b` (the components of `inv_dir`): division by
(positive) zero yields `+inf`. -/
def FVal.oneDiv (b : ℚ) : FVal := if b = 0 then .pinf else .fin (1 / b)

/-- Multiplication of a finite `f32` by a possibly-non-finite one
(`(min - origin) * inv_dir`): `0 * ±inf = NaN`. -/
def FVal.mulQ (q : ℚ) (f : FVal) : FVal :=
  match f with
  | .nan => .nan
  | .fin r => .fin (q * r)
  | .pinf => if q > 0 then .pinf else if q < 0 then .ninf else .nan
  | .ninf => if q > 0 then .ninf else if q < 0 then .pinf else .nan

/-- Rust `f32::min`: if one argument is `NaN`, the other is returned. -/
def FVal.fmin (a b : FVal) : FVal :=
  match a, b with
  | .nan, b => b
  | a, .nan => a
  | .ninf, _ => .ninf
  | _, .ninf => .ninf
  | .pinf, b => b
  | a, .pinf => a
  | .fin p, .fin q => .fin (min p q)

/-- Rust `f32::max`: if one argument is `NaN`, the other is returned. -/
def FVal.fmax (a b : FVal) : FVal :=
  match a, b with
  | .nan, b => b
  | a, .nan => a
  | .pinf, _ => .pinf
  | _, .pinf => .pinf
  | .ninf, b => b
  | a, .ninf => a
  | .fin p, .fin q => .fin (max p q)

/-- IEEE `a >= b` (false whenever either side is `NaN`). -/
def FVal.ge (a b : FVal) : Bool :=
  match a, b with
  | .nan, _ => false
  | _, .nan => false
  | .pinf, _ => true
  | _, .pinf => false
  | _, .ninf => true
  | .ninf, _ => false
  | .fin p, .fin q => decide (q ≤ p)

/-- IEEE `a <= b` (false whenever either side is `NaN`). -/
def FVal.le (a b : FVal) : Bool := FVal.ge b a

/-- Axis-aligned bounding box (`map_loader.rs`, `struct AABB`). -/
structure AABB where
  min : Vec3
  max : Vec3
deriving DecidableEq, Repr

/-- The value of `f32::MAX`, exactly. -/
def f32Max : ℚ := (2 ^ 24 - 1) * 2 ^ 104

/-- `AABB::new()`: the empty sentinel box `(f32::MAX, …)/(f32::MIN, …)`. -/
def AABB.new : AABB := ⟨⟨f32Max, f32Max, f32Max⟩, ⟨-f32Max, -f32Max, -f32Max⟩⟩

/-- `AABB::expand`: grow the box to contain the point `p`. -/
def AABB.expand (b : AABB) (p : Vec3) : AABB :=
  ⟨⟨Min.min b.min.x p.x, Min.min b.min.y p.y, Min.min b.min.z p.z⟩,
   ⟨Max.max b.max.x p.x, Max.max b.max.y p.y, Max.max b.max.z p.z⟩⟩

/-- `AABB::intersect`: the slab-method ray/AABB test, with the source's exact
operation order and Rust `f32` `min`/`max`/comparison semantics on the
possibly non-finite intermediate values. -/
def AABB.intersect (b : AABB) (origin : Vec3) (invDir : FVal × FVal × FVal) (tMax : ℚ) :
    Bool :=
  let tx1 := FVal.mulQ (b.min.x - origin.x) invDir.1
  let tx2 := FVal.mulQ (b.max.x - origin.x) invDir.1
  let tmin0 := FVal.fmin tx1 tx2
  let tmax0 := FVal.fmax tx1 tx2
  let ty1 := FVal.mulQ (b.min.y - origin.y) invDir.2.1
  let ty2 := FVal.mulQ (b.max.y - origin.y) invDir.2.1
  let tmin1 := FVal.fmax tmin0 (FVal.fmin ty1 ty2)
  let tmax1 := FVal.fmin tmax0 (FVal.fmax ty1 ty2)
  let tz1 := FVal.mulQ (b.min.z - origin.z) invDir.2.2
  let tz2 := FVal.mulQ (b.max.z - origin.z) invDir.2.2
  let tmin2 := FVal.fmax tmin1 (FVal.fmin tz1 tz2)
  let tmax2 := FVal.fmin tmax1 (FVal.fmax tz1 tz2)
  FVal.ge tmax2 tmin2 && FVal.ge tmax2 (.fin 0) && FVal.le tmin2 (.fin tMax)

/-- A triangle of the collision mesh (`map_loader.rs`, `struct Triangle`). -/
structure Triangle where
  v0 : Vec3
  v1 : Vec3
  v2 : Vec3
  normal : Vec3
  center : Vec3
deriving DecidableEq, Repr

/-- A flattened BVH node (`map_loader.rs`, `struct LinearNode`):
`count > 0` marks a leaf (`offset` = first triangle), `count == 0` a branch
(`offset` = right-child index; the left child is the next node). -/
structure LinearNode where
  aabb : AABB
  offset : ℕ
  count : ℕ
deriving DecidableEq, Repr

/-- The built collision mesh (`map_loader.rs`, `struct MapMesh`). -/
structure MapMesh where
  triangles : List Triangle
  nodes : List LinearNode
deriving DecidableEq, Repr

/-- The Möller–Trumbore ray/triangle test exactly as inlined in
`check_collision_ray`'s leaf loop, including the back-face skip and the
`1e-7` epsilon guards; returns the hit distance `t` when the triangle is hit
strictly closer than `closestDist`. -/
def rayTriangle (tri : Triangle) (start dirn : Vec3) (closestDist : ℚ) : Option ℚ :=
  if dirn.dot tri.normal > 0 then none
  else
    let eps : ℚ := 1 / 10000000
    let edge1 := tri.v1.sub tri.v0
    let edge2 := tri.v2.sub tri.v0
    let h := dirn.cross edge2
    let a := edge1.dot h
    if -eps < a ∧ a < eps then none
    else
      let f := 1 / a
      let s := start.sub tri.v0
      let u := f * s.dot h
      if u < 0 ∨ u > 1 then none
      else
        let q := s.cross edge1
        let v := f * dirn.dot q
        if v < 0 ∨ u + v > 1 then none
        else
          let t := f * edge2.dot q
          if t > eps ∧ t < closestDist then some t else none

/-- Scan the triangles of a leaf (the `for i in start_idx..end_idx` loop),
updating the closest hit.  A `none` result models the Rust panic on an
out-of-range triangle index. -/
def leafScan (tris : List Triangle) (start dirn : Vec3) (len : ℚ) :
    List ℕ → ℚ × Option (ℚ × Vec3 × Vec3) → Option (ℚ × Option (ℚ × Vec3 × Vec3))
  | [], acc => some acc
  | i :: rest, (cd, hit) =>
    match tris.get? i with
    | none => none
    | some tri =>
      match rayTriangle tri start dirn cd with
      | some t =>
        leafScan tris start dirn len rest
          (t, some (t / len, start.add (dirn.scale t), tri.normal))
      | none => leafScan tris start dirn len rest (cd, hit)

/-- The mutable state of `check_collision_ray`'s explicit-stack traversal:
the fixed 64-slot stack array, the stack pointer, and the
closest-hit-so-far data. -/
structure RayState where
  stack : Array ℕ
  sp : ℕ
  closestDist : ℚ
  closestHit : Option (ℚ × Vec3 × Vec3)
deriving DecidableEq, Repr

/-- Result of one iteration of the traversal loop. -/
inductive RayStep where
  | finished : Option (ℚ × Vec3 × Vec3) → RayStep
  | next : RayState → RayStep
  | stackFault : RayStep
  | meshFault : RayStep
deriving DecidableEq, Repr

/-- Bounds-checked array write; `none` models an out-of-bounds access to the
fixed stack array. -/
def arraySet? (a : Array ℕ) (i v : ℕ) : Option (Array ℕ) :=
  if h : i < a.size then some (a.set ⟨i, h⟩ v) else none

/-- One iteration of the `while stack_ptr > 0` loop of `check_collision_ray`:
pop a node, slab-test its AABB, scan a leaf or push a branch's two children
(only when `stack_ptr < 63`; otherwise both are silently skipped). -/
def rayStepF (m : MapMesh) (start dirn : Vec3) (invDir : FVal × FVal × FVal) (len : ℚ)
    (s : RayState) : RayStep :=
  if s.sp = 0 then .finished s.closestHit
  else
    let sp' := s.sp - 1
    match s.stack.get? sp' with
    | none => .stackFault
    | some nodeIdx =>
      match m.nodes.get? nodeIdx with
      | none => .meshFault
      | some node =>
        if !(node.aabb.intersect start invDir s.closestDist) then
          .next { s with sp := sp' }
        else if node.count > 0 then
          match leafScan m.triangles start dirn len (List.range' node.offset node.count)
              (s.closestDist, s.closestHit) with
          | none => .meshFault
          | some (cd, hit) => .next { s with sp := sp', closestDist := cd, closestHit := hit }
        else
          if sp' < 63 then
            match arraySet? s.stack sp' node.offset with
            | none => .stackFault
            | some st1 =>
              match arraySet? st1 (sp' + 1) (nodeIdx + 1) with
              | none => .stackFault
              | some st2 => .next { s with stack := st2, sp := sp' + 2 }
          else
            .next { s with sp := sp' }

/-- Outcome of running the traversal loop with a given amount of fuel. -/
inductive RayOutcome where
  | result : Option (ℚ × Vec3 × Vec3) → RayOutcome
  | stackFault : RayOutcome
  | meshFault : RayOutcome
  | fuelOut : RayOutcome
deriving DecidableEq, Repr

/-- Iterate `rayStepF` at most `fuel` times.  The Rust loop has no fuel; a
`fuelOut` result signals that the loop had not terminated after `fuel`
iterations. -/
def rayRun (m : MapMesh) (start dirn : Vec3) (invDir : FVal × FVal × FVal) (len : ℚ) :
    ℕ → RayState → RayOutcome
  | 0, _ => .fuelOut
  | fuel + 1, s =>
    match rayStepF m start dirn invDir len s with
    | .finished r => .result r
    | .next s' => rayRun m start dirn invDir len fuel s'
    | .stackFault => .stackFault
    | .meshFault => .meshFault

/-- The initial traversal state: `stack = [0u32; 64]`, root pushed at slot 0,
`stack_ptr = 1`, `closest_dist = len`, no hit yet. -/
def initRayState (len : ℚ) : RayState :=
  { stack := Array.mkArray 64 0, sp := 1, closestDist := len, closestHit := none }

/-- `MapMesh::check_collision_ray` up to and including the traversal loop,
parameterized by the loop fuel: the zero-length-segment guard, direction
normalization, `inv_dir` computation, the empty-BVH guard, then the loop. -/
def checkCollisionRayAux (m : MapMesh) (start e : Vec3) (fuel : ℕ) : RayOutcome :=
  let dir := e.sub start
  let len := dir.norm
  if len < 1 / 10000 then .result none
  else
    let dirn := dir.scale (1 / len)
    let invDir := (FVal.oneDiv dirn.x, FVal.oneDiv dirn.y, FVal.oneDiv dirn.z)
    if m.nodes.isEmpty then .result none
    else rayRun m start dirn invDir len fuel (initRayState len)

/-- `MapMesh::check_collision_ray`.  For a BVH produced by
`build_linear_bvh` every node is pushed at most once (each node has a unique
parent), so the loop runs at most `nodes.length` iterations plus the final
empty-stack check; `nodes.length + 1` fuel is exact. -/
def MapMesh.check_collision_ray (m : MapMesh) (start e : Vec3) : Option (ℚ × Vec3 × Vec3) :=
  match checkCollisionRayAux m start e (m.nodes.length + 1) with
  | .result r => r
  | _ => none

/-- `MapMesh::check_collision`: radius at most `0.001` delegates to the plain
ray query; otherwise five parallel rays (center and four offsets in the plane
orthogonal to the travel direction) are cast and the closest hit is
re-projected onto the central ray. -/
def MapMesh.check_collision (m : MapMesh) (start e : Vec3) (radius : ℚ) :
    Option (ℚ × Vec3 × Vec3) :=
  if radius ≤ 1 / 1000 then m.check_collision_ray start e
  else
    let dir := e.sub start
    let len := dir.norm
    if len < 1 / 10000 then none
    else
      let dirn := dir.scale (1 / len)
      let upRef : Vec3 := if |dirn.z| < 99 / 100 then ⟨0, 0, 1⟩ else ⟨1, 0, 0⟩
      let right := (dirn.cross upRef).normalize
      let up := (right.cross dirn).normalize
      let offsets : List Vec3 :=
        [⟨0, 0, 0⟩, right.scale radius, (right.scale radius).neg,
         up.scale radius, (up.scale radius).neg]
      (offsets.foldl
        (fun (acc : Option (ℚ × Vec3 × Vec3) × ℚ) off =>
          match m.check_collision_ray (start.add off) (e.add off) with
          | some (frac, _, normal) =>
            if frac < acc.2 then
              (some (frac, start.add (dirn.scale (len * frac)), normal), frac)
            else acc
          | none => acc)
        (none, 1)).1

/-- A default triangle used only to give `List.getD` a value; the source
would panic on the corresponding out-of-range index, and every settled claim
only indexes in range. -/
def defTriangle : Triangle :=
  ⟨⟨0, 0, 0⟩, ⟨0, 0, 0⟩, ⟨0, 0, 0⟩, ⟨0, 0, 0⟩, ⟨0, 0, 0⟩⟩

/-- The temporary recursive tree of `build_linear_bvh` (`struct BuildNode`):
the source marks a leaf by both children being `None`, which is encoded
positionally here. -/
inductive BuildNode where
  | leaf : AABB → List ℕ → BuildNode
  | branch : AABB → BuildNode → BuildNode → BuildNode
deriving DecidableEq, Repr

/-- The AABB accumulation at the head of `recursive_build`: expand an empty
box by `v0`, `v1`, `v2` of every indexed triangle, in order. -/
def computeAABB (ts : List Triangle) (idxs : List ℕ) : AABB :=
  idxs.foldl
    (fun b i =>
      let t := ts.getD i defTriangle
      ((b.expand t.v0).expand t.v1).expand t.v2)
    AABB.new

/-- The split-axis choice of `recursive_build`:
`if ex > ey && ex > ez { 0 } else if ey > ez { 1 } else { 2 }`. -/
def chooseAxis (e : Vec3) : ℕ :=
  if e.x > e.y ∧ e.x > e.z then 0 else if e.y > e.z then 1 else 2

/-- `nalgebra` component indexing `v[axis]` for `axis ∈ {0,1,2}`. -/
def axisCoord (v : Vec3) : ℕ → ℚ
  | 0 => v.x
  | 1 => v.y
  | _ => v.z

/-- The centroid coordinate `triangles[i].center[axis]` compared by the
selection in `recursive_build`. -/
def centerCoord (ts : List Triangle) (i axis : ℕ) : ℚ :=
  axisCoord (ts.getD i defTriangle).center axis

/-- `recursive_build`: leaves hold at most 8 triangle indices; larger nodes
sort the index slice by the chosen axis's centroid coordinate and recurse on
the two halves around the median position.  `select_nth_unstable_by` only
guarantees a partition of the slice around the median element (some
permutation with all smaller-or-equal elements before it); a stable sort is
one such permutation, and all claims below are invariant under which
partition is produced. -/
def recursive_build (ts : List Triangle) (idxs : List ℕ) : BuildNode :=
  let aabb := computeAABB ts idxs
  if idxs.length ≤ 8 then .leaf aabb idxs
  else
    let extent := aabb.max.sub aabb.min
    let axis := chooseAxis extent
    let sorted := idxs.mergeSort (fun a b => centerCoord ts a axis ≤ centerCoord ts b axis)
    let mid := idxs.length / 2
    .branch aabb (recursive_build ts (sorted.take mid)) (recursive_build ts (sorted.drop mid))
termination_by idxs.length
decreasing_by
  · simp only [List.length_take, List.length_mergeSort]
    omega
  · simp only [List.length_drop, List.length_mergeSort]
    omega

/-- The depth-first pre-order flattening of `build_linear_bvh` (`fn flatten`),
written functionally: `nb` is the index the subtree's root receives in the
node array, `tb` the offset at which its triangles start in the reordered
triangle array.  A branch stores the absolute index of its right child
(`nb + 1 + size of the left subtree's node list`) in `offset`; a leaf stores
`(tb, count)` and emits its triangles. -/
def flattenAux (ts : List Triangle) : BuildNode → ℕ → ℕ → List LinearNode × List Triangle
  | .leaf aabb idxs, _nb, tb =>
    ([⟨aabb, tb, idxs.length⟩], idxs.map (fun i => ts.getD i defTriangle))
  | .branch aabb l r, nb, tb =>
    let lf := flattenAux ts l (nb + 1) tb
    let rf := flattenAux ts r (nb + 1 + lf.1.length) (tb + lf.2.length)
    (⟨aabb, nb + 1 + lf.1.length, 0⟩ :: (lf.1 ++ rf.1), lf.2 ++ rf.2)

/-- `MapMesh::build_linear_bvh`: build the temporary tree over all triangle
indices, flatten it, and return the reordered triangles with the linear node
array. -/
def MapMesh.build_linear_bvh (ts : List Triangle) : List Triangle × List LinearNode :=
  let root := recursive_build ts (List.range ts.length)
  let fl := flattenAux ts root 0 0
  (fl.2, fl.1)

/-- `enum ActiveGrenadeType` of `grenade_trajectory.rs`. -/
inductive ActiveGrenadeType where
  | smoke | molotov | he | flash | decoy | unknown
deriving DecidableEq, Repr

/-- `ActiveGrenadeType::get_detonation_time`: HE and Flash detonate after
1.1 s, Molotov after 3.5 s, the rest have no timer. -/
def ActiveGrenadeType.get_detonation_time : ActiveGrenadeType → Option ℚ
  | .he => some (11 / 10)
  | .flash => some (11 / 10)
  | .molotov => some (7 / 2)
  | _ => none

/-- `struct TrajectoryState`: the cache key of the simulator.  `WeaponId` is
an opaque id, modelled as `ℕ`. -/
structure TrajectoryState where
  position : Vec3
  velocity : Vec3
  throw_strength : ℚ
  weapon_id : ℕ
deriving DecidableEq, Repr

/-- `TrajectoryState::is_similar`: tolerance-based cache equality. -/
def TrajectoryState.is_similar (a b : TrajectoryState) : Bool :=
  if a.weapon_id ≠ b.weapon_id then false
  else if |a.throw_strength - b.throw_strength| > 1 / 100 then false
  else if (a.position.sub b.position).normSq > 1 / 100 then false
  else if (a.velocity.sub b.velocity).normSq > 1 / 100 then false
  else true

/-- `struct TraceResult` of `grenade_trajectory.rs`. -/
structure TraceResult where
  fraction : ℚ
  did_hit : Bool
  plane_normal : Vec3
  end_pos : Vec3
deriving DecidableEq, Repr

/-- `GrenadeTrajectory::trace_ray`: capsule query of radius 2.0 against the
loaded map mesh (if any); a miss returns the full segment. -/
def trace_ray (mesh : Option MapMesh) (start e : Vec3) : TraceResult :=
  match mesh with
  | some m =>
    match m.check_collision start e 2 with
    | some (fraction, hitPos, normal) =>
      { fraction := fraction, did_hit := true, plane_normal := normal, end_pos := hitPos }
    | none => { fraction := 1, did_hit := false, plane_normal := ⟨0, 0, 0⟩, end_pos := e }
  | none => { fraction := 1, did_hit := false, plane_normal := ⟨0, 0, 0⟩, end_pos := e }

/-- The `for _step in 0..130` simulation loop of `GrenadeTrajectory::update`
(lines 354–410): record the position, stop on detonation-timer expiry, apply
gravity, trace a radius-2 capsule to the tentative next position, bounce
(restitution 0.45 / friction retention 0.40, 0.1-unit normal nudge, with the
molotov floor-stop and the low-speed stop) or commit the move, and stop when
falling 1000 units below the throw origin's floor height. -/
def simLoop (mesh : Option MapMesh) (active : ActiveGrenadeType) (det : Option ℚ)
    (floorZ : ℚ) : ℕ → Vec3 → Vec3 → ℚ → List Vec3 → List Vec3
  | 0, _, _, _, path => path
  | fuel + 1, position, velocity, accTime, path =>
    let path := path ++ [position]
    let accTime := accTime + 1 / 64
    let detonate : Bool := match det with | some d => decide (accTime ≥ d) | none => false
    if detonate then path
    else
      let velocity : Vec3 := ⟨velocity.x, velocity.y, velocity.z - 800 * (1 / 64)⟩
      let next := position.add (velocity.scale (1 / 64))
      let trace := trace_ray mesh position next
      if trace.did_hit then
        let position := trace.end_pos
        let path := path ++ [position]
        if active = ActiveGrenadeType.molotov ∧ trace.plane_normal.z > 7 / 10 then path
        else
          let normalVelocity := velocity.dot trace.plane_normal
          let velocityNormal := trace.plane_normal.scale normalVelocity
          let velocityTangent := velocity.sub velocityNormal
          let velocityNormalAfter := velocityNormal.scale (-(45 / 100))
          let velocityTangentAfter := velocityTangent.scale (40 / 100)
          let velocity := velocityNormalAfter.add velocityTangentAfter
          let position := position.add (trace.plane_normal.scale (1 / 10))
          if velocity.normSq < 100 then path
          else if position.z < floorZ - 1000 then path
          else simLoop mesh active det floorZ fuel position velocity accTime path
      else
        let position := next
        if position.z < floorZ - 1000 then path
        else simLoop mesh active det floorZ fuel position velocity accTime path

/-- The full path simulation of `GrenadeTrajectory::update`: run the 130-step
loop from the throw position and velocity with the active type's detonation
timer. -/
def simulate_path (mesh : Option MapMesh) (active : ActiveGrenadeType)
    (position velocity : Vec3) (floorZ : ℚ) : List Vec3 :=
  simLoop mesh active active.get_detonation_time floorZ 130 position velocity 0 []

/-- Lines 339–414 of `GrenadeTrajectory::update`: the cache check and the
recompute path.  On a cache hit (`is_similar` and a stored trajectory) the
function returns with both the trajectory and the cached state unchanged;
otherwise the path is recomputed and both fields are replaced. -/
def update_core (mesh : Option MapMesh) (active : ActiveGrenadeType) (floorZ : ℚ)
    (prevTraj : Option (List Vec3)) (prevState : Option TrajectoryState)
    (current : TrajectoryState) : Option (List Vec3) × Option TrajectoryState :=
  let cacheHit : Bool :=
    match prevState with
    | some last => last.is_similar current && prevTraj.isSome
    | none => false
  if cacheHit then (prevTraj, prevState)
  else
    (some (simulate_path mesh active current.position current.velocity floorZ), some current)

/-- 4×4 `f32` matrices of the renderer, idealized over `ℚ`. -/
abbrev Mat4 := Matrix (Fin 4) (Fin 4) ℚ

/-- The fallback transform of `CharacterModel::render`: the pelvis bone's
transform if present, else the root bone's, else the identity. -/
def fallbackTransform (bt : String → Option Mat4) : Mat4 :=
  match bt "pelvis" with
  | some m => m
  | none =>
    match bt "root" with
    | some m => m
    | none => 1

/-- One iteration of the joint-matrix resolution loop of
`CharacterModel::render` (step 0): write
`bone_transform * inverse_bind_matrix` into the slot of joint `p.1` when the
joint's bone name `p.2` is in the supplied transform map, and
`fallback * inverse_bind_matrix` otherwise. -/
def jointEntryStep (ibms : List Mat4) (bt : String → Option Mat4)
    (acc : List Mat4) (p : ℕ × String) : List Mat4 :=
  let ibm := ibms.getD p.1 1
  match bt p.2 with
  | some t => acc.set p.1 (t * ibm)
  | none => acc.set p.1 (fallbackTransform bt * ibm)

/-- The joint-matrix resolution loop of `CharacterModel::render`: starting
from a vector of identities (one per inverse bind matrix), resolve each joint
listed in `joint_map`.  The `HashMap` iteration order is modelled as the
association-list order; joint indices are unique, so the order does not
affect the result. -/
def computeJointMatrices (ibms : List Mat4) (jointMap : List (ℕ × String))
    (bt : String → Option Mat4) : List Mat4 :=
  jointMap.foldl (jointEntryStep ibms bt) (List.replicate ibms.length 1)

/- Concrete meshes, triangle lists and states used in the theorems below. -/

def floorTri : Triangle :=
  { v0 := ⟨-10000, -10000, 0⟩, v1 := ⟨10000, -10000, 0⟩, v2 := ⟨0, 10000, 0⟩,
    normal := ⟨0, 0, 1⟩, center := ⟨0, -10000/3, 0⟩ }

def floorMesh : MapMesh :=
  { triangles := (MapMesh.build_linear_bvh [floorTri]).1,
    nodes := (MapMesh.build_linear_bvh [floorTri]).2 }

def detTicks (T acc : ℚ) : ℕ := max 1 (⌈(T - acc) * 64⌉.toNat)

def ptTri (x y z : ℚ) : Triangle := ⟨⟨x,y,z⟩, ⟨x,y,z⟩, ⟨x,y,z⟩, ⟨0,0,1⟩, ⟨x,y,z⟩⟩

def ts9 : List Triangle :=
  [ptTri 8 0 0, ptTri 7 1 0, ptTri 6 2 0, ptTri 5 3 0, ptTri 4 4 0,
   ptTri 3 5 0, ptTri 2 6 0, ptTri 1 7 0, ptTri 0 8 0]

def treeIdxs : BuildNode → List ℕ
  | .leaf _ idxs => idxs
  | .branch _ l r => treeIdxs l ++ treeIdxs r

def rootLeft : BuildNode → List ℕ
  | .leaf _ idxs => idxs
  | .branch _ l _ => treeIdxs l

def rootRight : BuildNode → List ℕ
  | .leaf _ idxs => idxs
  | .branch _ _ r => treeIdxs r

def RecursiveBuildSplitSpec (ts : List Triangle) (idxs : List ℕ) : Prop :=
  let aabb := computeAABB ts idxs
  let extent := aabb.max.sub aabb.min
  let axis := chooseAxis extent
  let sorted := idxs.mergeSort (fun a b => centerCoord ts a axis ≤ centerCoord ts b axis)
  let mid := idxs.length / 2
  recursive_build ts idxs =
    BuildNode.branch aabb (recursive_build ts (sorted.take mid))
      (recursive_build ts (sorted.drop mid)) ∧
  sorted.Perm idxs ∧
  (sorted.take mid).length = mid ∧
  (∀ a ∈ sorted.take mid, ∀ b ∈ sorted.drop mid,
    centerCoord ts a axis ≤ centerCoord ts b axis) ∧
  axisCoord extent axis = Max.max (Max.max extent.x extent.y) extent.z ∧
  (axis = 0 → extent.y < extent.x ∧ extent.z < extent.x) ∧
  (axis = 1 → extent.z < extent.y)

def TriangleWf (t : Triangle) : Prop :=
  ∃ k : ℚ, 0 < k ∧ t.normal = ((t.v1.sub t.v0).cross (t.v2.sub t.v0)).scale k

def MeshWf (m : MapMesh) : Prop := ∀ t ∈ m.triangles, TriangleWf t

def HitDotNeg (dirn : Vec3) (r : Option (ℚ × Vec3 × Vec3)) : Prop :=
  ∀ f p n, r = some (f, p, n) → dirn.dot n < 0

def cycTri : Triangle :=
  { v0 := ⟨0, 0, 0⟩, v1 := ⟨1, 0, 0⟩, v2 := ⟨0, 1, 0⟩,
    normal := ⟨0, 0, -1⟩, center := ⟨1/3, 1/3, 0⟩ }

def bigBox : AABB := ⟨⟨-1000, -1000, -1000⟩, ⟨1000, 1000, 1000⟩⟩

def cycMesh : MapMesh :=
  { triangles := [cycTri],
    nodes := [⟨bigBox, 0, 0⟩, ⟨bigBox, 0, 1⟩] }

def cycStack : Array ℕ := (Array.mkArray 64 0).set ⟨1, by decide⟩ 1

def cycS1 : RayState := { stack := cycStack, sp := 2, closestDist := 20, closestHit := none }

def cycS2 : RayState := { stack := cycStack, sp := 1, closestDist := 20, closestHit := none }

def nodeCount : BuildNode → ℕ
  | .leaf _ _ => 1
  | .branch _ l r => 1 + nodeCount l + nodeCount r

def defNode : LinearNode := ⟨AABB.new, 0, 0⟩

def nodeAt (ns : List LinearNode) (j : ℕ) : LinearNode := ns.getD j defNode

def LeavesOk : BuildNode → Prop
  | .leaf _ idxs => 1 ≤ idxs.length ∧ idxs.length ≤ 8
  | .branch _ l r => LeavesOk l ∧ LeavesOk r

def BuildBvhCoverage (ts : List Triangle) : Prop :=
  (MapMesh.build_linear_bvh ts).1.Perm ts ∧
  (∀ j, j < (MapMesh.build_linear_bvh ts).2.length →
    (nodeAt (MapMesh.build_linear_bvh ts).2 j).count ≠ 0 →
    (nodeAt (MapMesh.build_linear_bvh ts).2 j).offset +
      (nodeAt (MapMesh.build_linear_bvh ts).2 j).count ≤
      (MapMesh.build_linear_bvh ts).1.length) ∧
  (∀ j j2, j < (MapMesh.build_linear_bvh ts).2.length →
    j2 < (MapMesh.build_linear_bvh ts).2.length → j ≠ j2 →
    (nodeAt (MapMesh.build_linear_bvh ts).2 j).count ≠ 0 →
    (nodeAt (MapMesh.build_linear_bvh ts).2 j2).count ≠ 0 →
    (nodeAt (MapMesh.build_linear_bvh ts).2 j).offset +
      (nodeAt (MapMesh.build_linear_bvh ts).2 j).count ≤
      (nodeAt (MapMesh.build_linear_bvh ts).2 j2).offset ∨
    (nodeAt (MapMesh.build_linear_bvh ts).2 j2).offset +
      (nodeAt (MapMesh.build_linear_bvh ts).2 j2).count ≤
      (nodeAt (MapMesh.build_linear_bvh ts).2 j).offset) ∧
  (∀ k, k < (MapMesh.build_linear_bvh ts).1.length →
    ∃ j, j < (MapMesh.build_linear_bvh ts).2.length ∧
      (nodeAt (MapMesh.build_linear_bvh ts).2 j).count ≠ 0 ∧
      (nodeAt (MapMesh.build_linear_bvh ts).2 j).offset ≤ k ∧
      k < (nodeAt (MapMesh.build_linear_bvh ts).2 j).offset +
        (nodeAt (MapMesh.build_linear_bvh ts).2 j).count)

def BuildBvhLayout (ts : List Triangle) : Prop :=
  0 < (MapMesh.build_linear_bvh ts).2.length ∧
  ∀ j, j < (MapMesh.build_linear_bvh ts).2.length →
    ((nodeAt (MapMesh.build_linear_bvh ts).2 j).count = 0 →
      j + 1 < (MapMesh.build_linear_bvh ts).2.length ∧
      j + 1 < (nodeAt (MapMesh.build_linear_bvh ts).2 j).offset ∧
      (nodeAt (MapMesh.build_linear_bvh ts).2 j).offset <
        (MapMesh.build_linear_bvh ts).2.length) ∧
    ((nodeAt (MapMesh.build_linear_bvh ts).2 j).count ≠ 0 →
      1 ≤ (nodeAt (MapMesh.build_linear_bvh ts).2 j).count ∧
      (nodeAt (MapMesh.build_linear_bvh ts).2 j).count ≤ 8)

def jointValue (ibms : List Mat4) (bt : String → Option Mat4) (p : ℕ × String) : Mat4 :=
  match bt p.2 with
  | some t => t * ibms.getD p.1 1
  | none => fallbackTransform bt * ibms.getD p.1 1

def JointMatrixSpec (ibms : List Mat4) (jointMap : List (ℕ × String))
    (bt : String → Option Mat4) (idx : ℕ) (name : String) : Prop :=
  (computeJointMatrices ibms jointMap bt).getD idx 1 =
    match bt name with
    | some t => t * ibms.getD idx 1
    | none =>
      (match bt "pelvis" with
       | some p => p
       | none =>
         match bt "root" with
         | some rt => rt
         | none => 1) * ibms.getD idx 1

def zeroState : TrajectoryState := ⟨⟨0, 0, 0⟩, ⟨0, 0, 0⟩, 1, 7⟩

/- Theorems. -/

/-- C3: `check_collision` with radius 0 (which is at most the 0.001 threshold) returns exactly the result of `check_collision_ray` on the same segment. -/
theorem check_collision_zero_radius (m : MapMesh) (s e : Vec3) : m.check_collision s e 0 = m.check_collision_ray s e := by
  unfold MapMesh.check_collision
  norm_num

/-- C8: `check_collision_ray` returns `none` when the segment is shorter than 1e-4, and also when the mesh's node array is empty. -/
theorem check_collision_ray_degenerate_none (m : MapMesh) (s e : Vec3) (h : (e.sub s).norm < 1/10000 ∨ m.nodes = []) :
    m.check_collision_ray s e = none := by
  unfold MapMesh.check_collision_ray checkCollisionRayAux
  rcases h with h | h
  · rw [if_pos (by simpa using h)]
  · simp only [h, List.isEmpty_nil, if_true]
    have he : (if (e.sub s).norm < 1 / 10000 then RayOutcome.result (none : Option (ℚ × Vec3 × Vec3))
        else RayOutcome.result none) = RayOutcome.result none := by split <;> rfl
    rw [he]

theorem detTicks_step (T acc : ℚ) (h : acc + 1/64 < T) :
    detTicks T (acc + 1/64) + 1 = detTicks T acc ∧ 2 ≤ detTicks T acc := by
  have hpos : (0:ℚ) < (T - (acc + 1/64)) * 64 := by nlinarith
  have hc : 0 < ⌈(T - (acc + 1/64)) * 64⌉ := Int.ceil_pos.mpr hpos
  have heq : (T - acc) * 64 = (T - (acc + 1/64)) * 64 + 1 := by ring
  have : ⌈(T - acc) * 64⌉ = ⌈(T - (acc + 1/64)) * 64⌉ + 1 := by
    rw [heq, Int.ceil_add_one]
  unfold detTicks
  rw [this]
  omega

theorem simLoop_det_len (mesh : Option MapMesh) (active : ActiveGrenadeType)
    (floorZ T : ℚ) :
    ∀ (fuel : ℕ) (pos vel : Vec3) (acc : ℚ) (path : List Vec3),
      (simLoop mesh active (some T) floorZ fuel pos vel acc path).length + 1 ≤
        path.length + 2 * detTicks T acc := by
  intro fuel
  induction fuel with
  | zero =>
    intro pos vel acc path
    have h1 : 1 ≤ detTicks T acc := le_max_left 1 _
    simp only [simLoop]
    omega
  | succ n ih =>
    intro pos vel acc path
    have h1 : 1 ≤ detTicks T acc := le_max_left 1 _
    simp only [simLoop]
    simp only [ge_iff_le, decide_eq_true_eq]
    by_cases hdet : T ≤ acc + 1/64
    · rw [if_pos hdet]
      simp only [List.length_append, List.length_cons, List.length_nil]
      omega
    · push_neg at hdet
      obtain ⟨hstep, h2⟩ := detTicks_step T acc hdet
      rw [if_neg (not_le.mpr hdet)]
      by_cases hhit : (trace_ray mesh pos
          (pos.add ((⟨vel.x, vel.y, vel.z - 800 * (1/64)⟩ : Vec3).scale (1/64)))).did_hit = true
      · simp only [hhit, if_true]
        split
        · simp only [List.length_append, List.length_cons, List.length_nil]; omega
        · split
          · simp only [List.length_append, List.length_cons, List.length_nil]; omega
          · split
            · simp only [List.length_append, List.length_cons, List.length_nil]; omega
            · refine le_trans (ih _ _ _ _) ?_
              simp only [List.length_append, List.length_cons, List.length_nil]
              omega
      · simp only [Bool.not_eq_true] at hhit
        simp only [hhit, Bool.false_eq_true, if_false]
        split
        · simp only [List.length_append, List.length_cons, List.length_nil]; omega
        · refine le_trans (ih _ _ _ _) ?_
          simp only [List.length_append, List.length_cons, List.length_nil]
          omega

theorem simLoop_len_fuel (mesh : Option MapMesh) (active : ActiveGrenadeType)
    (det : Option ℚ) (floorZ : ℚ) :
    ∀ (fuel : ℕ) (pos vel : Vec3) (acc : ℚ) (path : List Vec3),
      (simLoop mesh active det floorZ fuel pos vel acc path).length ≤ path.length + 2 * fuel := by
  intro fuel
  induction fuel with
  | zero => intro pos vel acc path; simp [simLoop]
  | succ n ih =>
    intro pos vel acc path
    simp only [simLoop]
    split
    · simp only [List.length_append, List.length_cons, List.length_nil]; omega
    · split
      · split
        · simp only [List.length_append, List.length_cons, List.length_nil]; omega
        · split
          · simp only [List.length_append, List.length_cons, List.length_nil]; omega
          · split
            · simp only [List.length_append, List.length_cons, List.length_nil]; omega
            · refine le_trans (ih _ _ _ _) ?_
              simp only [List.length_append, List.length_cons, List.length_nil]
              omega
      · split
        · simp only [List.length_append, List.length_cons, List.length_nil]; omega
        · refine le_trans (ih _ _ _ _) ?_
          simp only [List.length_append, List.length_cons, List.length_nil]
          omega

/-- C2 (amended): the simulated path holds at most `2 * max 1 ceil(T * 64) - 1` points, where `T` is the detonation time: each tick contributes the start-of-tick point plus at most one extra collision point, and the detonation timer bounds the tick count. Also the 130-iteration cap bounds the length by 260 unconditionally. -/
theorem simulate_path_det_bound (mesh : Option MapMesh) (active : ActiveGrenadeType)
    (pos vel : Vec3) (floorZ T : ℚ) (hdet : active.get_detonation_time = some T) :
    (simulate_path mesh active pos vel floorZ).length + 1 ≤ 2 * max 1 (⌈T * 64⌉.toNat) ∧
    (simulate_path mesh active pos vel floorZ).length ≤ 260 := by
  unfold simulate_path
  rw [hdet]
  constructor
  · have h := simLoop_det_len mesh active floorZ T 130 pos vel 0 []
    simpa [detTicks] using h
  · simpa using simLoop_len_fuel mesh active (some T) floorZ 130 pos vel 0 []

theorem ceil_he : (⌈(11/10 : ℚ) / (1/64)⌉ : ℤ) = 71 := by
  have h : ((11:ℚ)/10) / (1/64) = 352/5 := by norm_num
  rw [h, Int.ceil_eq_iff]
  norm_num

set_option maxRecDepth 100000 in
/-- C2 counterexample: an HE grenade dropped straight down onto a floor bounces every tick, so each iteration pushes two points; after 71 ticks (detonation at 1.1 s, tick 1/64 s) the path holds 73 points, exceeding the claimed bound ceil(T / tick) + 1 = 72. -/
theorem simulate_path_exceeds_claimed_bound :
    (simulate_path (some floorMesh) .he ⟨0, 0, 100⟩ ⟨0, 0, -600⟩ 0).length = 73 ∧
    ActiveGrenadeType.he.get_detonation_time = some (11/10) ∧
    ¬ ((simulate_path (some floorMesh) .he ⟨0, 0, 100⟩ ⟨0, 0, -600⟩ 0).length ≤
        (⌈(11/10 : ℚ) / (1/64)⌉.toNat + 1)) := by
  refine ⟨by with_unfolding_all decide, rfl, ?_⟩
  have h73 : (simulate_path (some floorMesh) .he ⟨0, 0, 100⟩ ⟨0, 0, -600⟩ 0).length = 73 := by
    with_unfolding_all decide
  rw [h73, ceil_he]
  decide

set_option maxRecDepth 100000 in
/-- C7 counterexample: with x- and y-extents tied (and exceeding z), `chooseAxis` picks axis 1, not the earlier axis 0; splitting the 9 tile-triangles on y yields left part [0,1,2,3], refuting the claimed earlier-axis tie-break (splitting on x would order them oppositely, as the strict center comparison shows). -/
theorem recursive_build_tie_break_counterexample :
    chooseAxis ((computeAABB ts9 (List.range 9)).max.sub (computeAABB ts9 (List.range 9)).min) = 1 ∧
    ((computeAABB ts9 (List.range 9)).max.sub (computeAABB ts9 (List.range 9)).min).x =
      ((computeAABB ts9 (List.range 9)).max.sub (computeAABB ts9 (List.range 9)).min).y ∧
    rootLeft (recursive_build ts9 (List.range 9)) = [0, 1, 2, 3] ∧
    rootRight (recursive_build ts9 (List.range 9)) = [4, 5, 6, 7, 8] ∧
    centerCoord ts9 8 0 < centerCoord ts9 0 0 := by
  with_unfolding_all decide

theorem chooseAxis_max (e : Vec3) :
    axisCoord e (chooseAxis e) = Max.max (Max.max e.x e.y) e.z ∧
    (chooseAxis e = 0 → e.y < e.x ∧ e.z < e.x) ∧
    (chooseAxis e = 1 → e.z < e.y) := by
  unfold chooseAxis
  split_ifs with h1 h2
  · refine ⟨?_, fun _ => h1, fun h => absurd h (by decide)⟩
    simp only [axisCoord]
    rw [max_eq_left h1.1.le, max_eq_left h1.2.le]
  · push_neg at h1
    refine ⟨?_, fun h => absurd h (by decide), fun _ => h2⟩
    simp only [axisCoord]
    have hxy : e.x ≤ e.y := by
      rcases le_or_lt e.x e.y with h | h
      · exact h
      · have := h1 h
        linarith
    rw [max_eq_right hxy, max_eq_left h2.le]
  · push_neg at h1 h2
    refine ⟨?_, fun h => absurd h (by decide), fun h => absurd h (by decide)⟩
    simp only [axisCoord]
    have hxz : e.x ≤ e.z := by
      rcases le_or_lt e.x e.y with h | h
      · exact le_trans h h2
      · exact le_trans (h1 h) (le_refl _)
    rw [max_eq_right (max_le hxz h2)]

theorem pairwise_take_drop (key : ℕ → ℚ) (l : List ℕ) (n : ℕ) :
    ∀ a ∈ (l.mergeSort (fun x y => key x ≤ key y)).take n,
    ∀ b ∈ (l.mergeSort (fun x y => key x ≤ key y)).drop n, key a ≤ key b := by
  have hs := @List.sorted_mergeSort ℕ (fun x y => decide (key x ≤ key y))
    (fun a b c hab hbc => by
      simp only [decide_eq_true_eq] at hab hbc ⊢
      exact le_trans hab hbc)
    (fun a b => by
      simp only [Bool.or_eq_true, decide_eq_true_eq]
      exact le_total _ _) l
  rw [← List.take_append_drop n (l.mergeSort (fun x y => key x ≤ key y))] at hs
  intro a ha b hb
  have cross := (List.pairwise_append.mp hs).2.2 a ha b hb
  simpa using cross

/-- C7 (amended): `recursive_build` on more than 8 triangles splits on an axis of maximal extent, chosen so that any strictly earlier axis has strictly smaller extent (ties go to the later axis), and partitions at the median: the two sides have sizes len/2 and len - len/2, and every center coordinate on the left is at most every one on the right along the split axis. -/
theorem recursive_build_split (ts : List Triangle) (idxs : List ℕ) (h : 8 < idxs.length) :
    RecursiveBuildSplitSpec ts idxs := by
  have hax := chooseAxis_max ((computeAABB ts idxs).max.sub (computeAABB ts idxs).min)
  simp only [RecursiveBuildSplitSpec]
  refine ⟨?_, List.mergeSort_perm _ _, ?_, ?_, hax.1, hax.2.1, hax.2.2⟩
  · rw [recursive_build]
    rw [if_neg (by omega)]
  · rw [List.length_take, List.length_mergeSort]
    omega
  · exact pairwise_take_drop
      (fun i => centerCoord ts i (chooseAxis ((computeAABB ts idxs).max.sub
        (computeAABB ts idxs).min))) idxs (idxs.length / 2)

theorem triple_product_antisym (d p q : Vec3) : p.dot (d.cross q) = -(d.dot (p.cross q)) := by
  unfold Vec3.dot Vec3.cross
  ring

theorem dot_scale (u v : Vec3) (k : ℚ) : u.dot (v.scale k) = k * u.dot v := by
  unfold Vec3.dot Vec3.scale
  ring

theorem rayTriangle_hit_dot_neg (tri : Triangle) (start dirn : Vec3) (cd t : ℚ)
    (hwf : TriangleWf tri) (h : rayTriangle tri start dirn cd = some t) :
    dirn.dot tri.normal < 0 := by
  obtain ⟨k, hk, hn⟩ := hwf
  simp only [rayTriangle] at h
  by_cases h1 : dirn.dot tri.normal > 0
  · rw [if_pos h1] at h
    exact absurd h (by simp)
  · rw [if_neg h1] at h
    push_neg at h1
    by_cases h2 : -(1/10000000 : ℚ) < (tri.v1.sub tri.v0).dot (dirn.cross (tri.v2.sub tri.v0)) ∧
        (tri.v1.sub tri.v0).dot (dirn.cross (tri.v2.sub tri.v0)) < 1/10000000
    · rw [if_pos h2] at h
      exact absurd h (by simp)
    · have ha : (tri.v1.sub tri.v0).dot (dirn.cross (tri.v2.sub tri.v0)) =
          -(dirn.dot ((tri.v1.sub tri.v0).cross (tri.v2.sub tri.v0))) :=
        triple_product_antisym dirn (tri.v1.sub tri.v0) (tri.v2.sub tri.v0)
      have hd : dirn.dot tri.normal =
          k * dirn.dot ((tri.v1.sub tri.v0).cross (tri.v2.sub tri.v0)) := by
        rw [hn, dot_scale]
      push_neg at h2
      rcases lt_or_le (-(1/10000000 : ℚ)) ((tri.v1.sub tri.v0).dot (dirn.cross (tri.v2.sub tri.v0))) with hc | hc
      · have := h2 hc
        nlinarith
      · nlinarith

theorem leafScan_inv (tris : List Triangle) (start dirn : Vec3) (len : ℚ)
    (hwf : ∀ t ∈ tris, TriangleWf t) :
    ∀ (is : List ℕ) (cd : ℚ) (hit : Option (ℚ × Vec3 × Vec3))
      (res : ℚ × Option (ℚ × Vec3 × Vec3)),
      HitDotNeg dirn hit → leafScan tris start dirn len is (cd, hit) = some res →
      HitDotNeg dirn res.2 := by
  intro is
  induction is with
  | nil =>
    intro cd hit res hinv h
    simp only [leafScan, Option.some_inj] at h
    rw [← h]
    exact hinv
  | cons i rest ih =>
    intro cd hit res hinv h
    simp only [leafScan] at h
    split at h
    · exact absurd h (by simp)
    · rename_i tri hg
      split at h
      · rename_i t hr
        refine ih _ _ _ ?_ h
        intro f p n heq
        have hn : n = tri.normal := by
          injection heq with heq2
          injection heq2 with _ heq3
          injection heq3 with _ heq4
          exact heq4.symm
        rw [hn]
        exact rayTriangle_hit_dot_neg tri start dirn cd t (hwf tri (List.get?_mem hg)) hr
      · exact ih _ _ _ hinv h

theorem rayStepF_finished_eq (m : MapMesh) (start dirn : Vec3) (invD : FVal × FVal × FVal)
    (len : ℚ) (s : RayState) (r : Option (ℚ × Vec3 × Vec3))
    (h : rayStepF m start dirn invD len s = RayStep.finished r) : r = s.closestHit := by
  simp only [rayStepF] at h
  split at h
  · injection h with h2
    exact h2.symm
  · split at h
    · exact absurd h (by simp)
    · split at h
      · exact absurd h (by simp)
      · split at h
        · exact absurd h (by simp)
        · split at h
          · split at h
            · exact absurd h (by simp)
            · exact absurd h (by simp)
          · split at h
            · split at h
              · exact absurd h (by simp)
              · split at h
                · exact absurd h (by simp)
                · exact absurd h (by simp)
            · exact absurd h (by simp)

theorem rayStepF_next_inv (m : MapMesh) (start dirn : Vec3) (invD : FVal × FVal × FVal)
    (len : ℚ) (s s2 : RayState) (hwf : ∀ t ∈ m.triangles, TriangleWf t)
    (hinv : HitDotNeg dirn s.closestHit)
    (h : rayStepF m start dirn invD len s = RayStep.next s2) :
    HitDotNeg dirn s2.closestHit := by
  simp only [rayStepF] at h
  split at h
  · exact absurd h (by simp)
  · split at h
    · exact absurd h (by simp)
    · split at h
      · exact absurd h (by simp)
      · split at h
        · injection h with h2
          rw [← h2]
          exact hinv
        · split at h
          · split at h
            · exact absurd h (by simp)
            · rename_i cd hit hscan
              injection h with h2
              rw [← h2]
              exact leafScan_inv m.triangles start dirn len hwf _ _ _ _ hinv hscan
          · split at h
            · split at h
              · exact absurd h (by simp)
              · split at h
                · exact absurd h (by simp)
                · injection h with h2
                  rw [← h2]
                  exact hinv
            · injection h with h2
              rw [← h2]
              exact hinv

theorem rayRun_inv (m : MapMesh) (start dirn : Vec3) (invD : FVal × FVal × FVal) (len : ℚ)
    (hwf : ∀ t ∈ m.triangles, TriangleWf t) :
    ∀ (fuel : ℕ) (s : RayState) (r : Option (ℚ × Vec3 × Vec3)),
      HitDotNeg dirn s.closestHit →
      rayRun m start dirn invD len fuel s = RayOutcome.result r → HitDotNeg dirn r := by
  intro fuel
  induction fuel with
  | zero =>
    intro s r _ h
    exact absurd h (by simp [rayRun])
  | succ n ih =>
    intro s r hinv h
    simp only [rayRun] at h
    cases hst : rayStepF m start dirn invD len s with
    | finished r2 =>
      rw [hst] at h
      injection h with h2
      rw [← h2, rayStepF_finished_eq m start dirn invD len s r2 hst]
      exact hinv
    | next s2 =>
      rw [hst] at h
      exact ih s2 r (rayStepF_next_inv m start dirn invD len s s2 hwf hinv hst) h
    | stackFault => rw [hst] at h; exact absurd h (by simp)
    | meshFault => rw [hst] at h; exact absurd h (by simp)

/-- C4: any hit reported by `check_collision_ray` strikes the front side: the normalised ray direction has strictly negative dot product with the reported surface normal, provided every stored triangle normal is a positive multiple of the corresponding edge cross product. -/
theorem check_collision_ray_backface (m : MapMesh) (s e : Vec3) (f : ℚ) (p n : Vec3)
    (hwf : MeshWf m) (h : m.check_collision_ray s e = some (f, p, n)) :
    ((e.sub s).scale (1 / (e.sub s).norm)).dot n < 0 := by
  unfold MapMesh.check_collision_ray at h
  cases ho : checkCollisionRayAux m s e (m.nodes.length + 1) with
  | result r =>
    rw [ho] at h
    have hr : r = some (f, p, n) := by simpa using h
    simp only [checkCollisionRayAux] at ho
    split at ho
    · injection ho with h2
      rw [← h2] at hr
      exact absurd hr (by simp)
    · split at ho
      · injection ho with h2
        rw [← h2] at hr
        exact absurd hr (by simp)
      · exact rayRun_inv m s _ _ _ hwf _ _ r
          (by intro f2 p2 n2 hh; exact absurd hh (by simp [initRayState])) ho f p n hr
  | stackFault => rw [ho] at h; exact absurd h (by simp)
  | meshFault => rw [ho] at h; exact absurd h (by simp)
  | fuelOut => rw [ho] at h; exact absurd h (by simp)

theorem arraySet?_lt (a : Array ℕ) (i v : ℕ) (h : i < a.size) :
    arraySet? a i v = some (a.set ⟨i, h⟩ v) := by
  simp [arraySet?, h]

theorem arraySet?_some_size (a b : Array ℕ) (i v : ℕ) (h : arraySet? a i v = some b) :
    b.size = a.size := by
  simp only [arraySet?] at h
  split at h
  · injection h with h2
    rw [← h2]
    exact Array.size_set a _ v
  · cases h

theorem arraySet?_none_oob (a : Array ℕ) (i v : ℕ) (h : arraySet? a i v = none) :
    ¬ i < a.size := by
  simp only [arraySet?] at h
  split at h
  · cases h
  · assumption

theorem rayStepF_stack_ok (m : MapMesh) (start dirn : Vec3) (invD : FVal × FVal × FVal)
    (len : ℚ) (s : RayState) (hs : s.stack.size = 64) (hsp : s.sp ≤ 64) :
    rayStepF m start dirn invD len s ≠ RayStep.stackFault ∧
    (∀ s2, rayStepF m start dirn invD len s = RayStep.next s2 →
      s2.stack.size = 64 ∧ s2.sp ≤ 64) := by
  constructor
  · intro hcontra
    simp only [rayStepF] at hcontra
    split at hcontra
    · cases hcontra
    · rename_i hz
      split at hcontra
      · rename_i heq
        have hlt : s.sp - 1 < s.stack.size := by omega
        simp [Array.get?, hlt] at heq
      · split at hcontra
        · cases hcontra
        · split at hcontra
          · cases hcontra
          · split at hcontra
            · split at hcontra
              · cases hcontra
              · cases hcontra
            · split at hcontra
              · rename_i hp
                split at hcontra
                · rename_i heq1
                  have := arraySet?_none_oob _ _ _ heq1
                  omega
                · rename_i st1 heq1
                  split at hcontra
                  · rename_i heq2
                    have h1 := arraySet?_some_size _ _ _ _ heq1
                    have := arraySet?_none_oob _ _ _ heq2
                    omega
                  · cases hcontra
              · cases hcontra
  · intro s2 h
    simp only [rayStepF] at h
    split at h
    · cases h
    · rename_i hz
      split at h
      · cases h
      · split at h
        · cases h
        · split at h
          · injection h with h3
            rw [← h3]
            exact ⟨by dsimp only; omega, by dsimp only; omega⟩
          · split at h
            · split at h
              · cases h
              · injection h with h3
                rw [← h3]
                exact ⟨by dsimp only; omega, by dsimp only; omega⟩
            · split at h
              · rename_i hp
                split at h
                · cases h
                · rename_i st1 heq1
                  split at h
                  · cases h
                  · rename_i st2 heq2
                    injection h with h3
                    rw [← h3]
                    have h1 := arraySet?_some_size _ _ _ _ heq1
                    have h2 := arraySet?_some_size _ _ _ _ heq2
                    exact ⟨by dsimp only; omega, by dsimp only; omega⟩
              · injection h with h3
                rw [← h3]
                exact ⟨by dsimp only; omega, by dsimp only; omega⟩

theorem rayRun_no_stackFault (m : MapMesh) (start dirn : Vec3) (invD : FVal × FVal × FVal)
    (len : ℚ) :
    ∀ (fuel : ℕ) (s : RayState), s.stack.size = 64 → s.sp ≤ 64 →
      rayRun m start dirn invD len fuel s ≠ RayOutcome.stackFault := by
  intro fuel
  induction fuel with
  | zero =>
    intro s _ _
    simp [rayRun]
  | succ n ih =>
    intro s hs hsp
    simp only [rayRun]
    have hstep := rayStepF_stack_ok m start dirn invD len s hs hsp
    cases hst : rayStepF m start dirn invD len s with
    | finished r => simp
    | next s2 =>
      have := hstep.2 s2 hst
      exact ih s2 this.1 this.2
    | stackFault => exact absurd hst hstep.1
    | meshFault => simp

/-- C10 (amended, stack-safety half): every stack access during `check_collision_ray` traversal stays within the 64 slots; children are pushed only while `stack_ptr < 63`, so the traversal can never fault on the stack, for any node contents and any fuel. -/
theorem check_collision_ray_stack_safe (m : MapMesh) (s e : Vec3) (fuel : ℕ) :
    checkCollisionRayAux m s e fuel ≠ RayOutcome.stackFault := by
  simp only [checkCollisionRayAux]
  split
  · simp
  · split
    · simp
    · exact rayRun_no_stackFault m s _ _ _ fuel (initRayState (e.sub s).norm)
        (by simp [initRayState]) (by simp [initRayState])

set_option maxRecDepth 40000 in
/-- C10 counterexample (totality half): a node array whose branches form a 2-cycle makes the traversal revisit the same two states forever, so the loop need not terminate; the concrete run exhausts any amount of fuel. -/
theorem ray_traversal_cycle_counterexample :
    rayStepF cycMesh ⟨1, 2, 500⟩ ⟨0, 0, -1⟩ (FVal.pinf, FVal.pinf, FVal.fin (-1)) 20
        (initRayState 20) = RayStep.next cycS1 ∧
    rayStepF cycMesh ⟨1, 2, 500⟩ ⟨0, 0, -1⟩ (FVal.pinf, FVal.pinf, FVal.fin (-1)) 20
        cycS1 = RayStep.next cycS2 ∧
    rayStepF cycMesh ⟨1, 2, 500⟩ ⟨0, 0, -1⟩ (FVal.pinf, FVal.pinf, FVal.fin (-1)) 20
        cycS2 = RayStep.next cycS1 ∧
    cycS1 ≠ cycS2 ∧
    checkCollisionRayAux cycMesh ⟨1, 2, 500⟩ ⟨1, 2, 480⟩ 1000 = RayOutcome.fuelOut := by
  with_unfolding_all decide

set_option maxRecDepth 40000 in
theorem cyc_run_forever :
    ∀ fuel : ℕ,
      rayRun cycMesh ⟨1, 2, 500⟩ ⟨0, 0, -1⟩ (FVal.pinf, FVal.pinf, FVal.fin (-1)) 20 fuel
          cycS1 = RayOutcome.fuelOut ∧
      rayRun cycMesh ⟨1, 2, 500⟩ ⟨0, 0, -1⟩ (FVal.pinf, FVal.pinf, FVal.fin (-1)) 20 fuel
          cycS2 = RayOutcome.fuelOut := by
  intro fuel
  induction fuel with
  | zero => exact ⟨rfl, rfl⟩
  | succ n ih =>
    constructor
    · simp only [rayRun]
      rw [show rayStepF cycMesh ⟨1, 2, 500⟩ ⟨0, 0, -1⟩ (FVal.pinf, FVal.pinf, FVal.fin (-1)) 20
          cycS1 = RayStep.next cycS2 from by with_unfolding_all decide]
      exact ih.2
    · simp only [rayRun]
      rw [show rayStepF cycMesh ⟨1, 2, 500⟩ ⟨0, 0, -1⟩ (FVal.pinf, FVal.pinf, FVal.fin (-1)) 20
          cycS2 = RayStep.next cycS1 from by with_unfolding_all decide]
      exact ih.1

theorem flattenAux_len_tris (ts : List Triangle) :
    ∀ (t : BuildNode) (nb tb : ℕ),
      (flattenAux ts t nb tb).1.length = nodeCount t ∧
      (flattenAux ts t nb tb).2 = (treeIdxs t).map (fun i => ts.getD i defTriangle) := by
  intro t
  induction t with
  | leaf aabb idxs =>
    intro nb tb
    simp [flattenAux, nodeCount, treeIdxs]
  | branch aabb l r ihl ihr =>
    intro nb tb
    have ihl1 : ∀ a b, (flattenAux ts l a b).1.length = nodeCount l := fun a b => (ihl a b).1
    have ihl2 : ∀ a b, (flattenAux ts l a b).2 =
        (treeIdxs l).map (fun i => ts.getD i defTriangle) := fun a b => (ihl a b).2
    have ihr1 : ∀ a b, (flattenAux ts r a b).1.length = nodeCount r := fun a b => (ihr a b).1
    have ihr2 : ∀ a b, (flattenAux ts r a b).2 =
        (treeIdxs r).map (fun i => ts.getD i defTriangle) := fun a b => (ihr a b).2
    constructor
    · simp only [flattenAux, List.length_cons, List.length_append, ihl1, ihr1, nodeCount]
      omega
    · simp only [flattenAux, ihl2, ihr2, treeIdxs, List.map_append]

theorem nodeCount_pos (t : BuildNode) : 1 ≤ nodeCount t := by
  cases t with
  | leaf a i => simp [nodeCount]
  | branch a l r => simp [nodeCount]; omega

theorem recursive_build_perm (ts : List Triangle) :
    ∀ (n : ℕ) (idxs : List ℕ), idxs.length ≤ n →
      (treeIdxs (recursive_build ts idxs)).Perm idxs := by
  intro n
  induction n with
  | zero =>
    intro idxs h
    have h2 : idxs = [] := List.length_eq_zero.mp (by omega)
    subst h2
    rw [recursive_build]
    simp [treeIdxs]
  | succ n ih =>
    intro idxs h
    rw [recursive_build]
    split
    · simp [treeIdxs]
    · rename_i hgt
      push_neg at hgt
      simp only [treeIdxs]
      refine List.Perm.trans (List.Perm.append (ih _ ?_) (ih _ ?_)) ?_
      · simp only [List.length_take, List.length_mergeSort]
        omega
      · simp only [List.length_drop, List.length_mergeSort]
        omega
      · rw [List.take_append_drop]
        exact List.mergeSort_perm idxs _

theorem recursive_build_leavesOk (ts : List Triangle) :
    ∀ (n : ℕ) (idxs : List ℕ), idxs.length ≤ n → idxs ≠ [] →
      LeavesOk (recursive_build ts idxs) := by
  intro n
  induction n with
  | zero =>
    intro idxs h hne
    exact absurd (List.length_eq_zero.mp (by omega)) hne
  | succ n ih =>
    intro idxs h hne
    rw [recursive_build]
    split
    · rename_i hle
      simp only [LeavesOk]
      have : 0 < idxs.length := List.length_pos.mpr hne
      omega
    · rename_i hgt
      push_neg at hgt
      simp only [LeavesOk]
      constructor
      · refine ih _ ?_ ?_
        · simp only [List.length_take, List.length_mergeSort]
          omega
        · intro hc
          have := congrArg List.length hc
          simp only [List.length_take, List.length_mergeSort, List.length_nil] at this
          omega
      · refine ih _ ?_ ?_
        · simp only [List.length_drop, List.length_mergeSort]
          omega
        · intro hc
          have := congrArg List.length hc
          simp only [List.length_drop, List.length_mergeSort, List.length_nil] at this
          omega

theorem nodeAt_cons_zero (b : LinearNode) (l : List LinearNode) : nodeAt (b :: l) 0 = b := rfl

theorem nodeAt_cons_append_left (b : LinearNode) (l1 l2 : List LinearNode) (j : ℕ)
    (h : j < l1.length) : nodeAt (b :: l1 ++ l2) (j + 1) = nodeAt l1 j := by
  simp only [nodeAt, List.getD_cons_succ]
  exact List.getD_append l1 l2 defNode j h

theorem nodeAt_cons_append_right (b : LinearNode) (l1 l2 : List LinearNode) (j : ℕ) :
    nodeAt (b :: l1 ++ l2) (l1.length + j + 1) = nodeAt l2 j := by
  unfold nodeAt
  rw [show (b :: l1 ++ l2).getD (l1.length + j + 1) defNode =
      (l1 ++ l2).getD (l1.length + j) defNode from List.getD_cons_succ]
  rw [List.getD_append_right l1 l2 defNode (l1.length + j) (by omega)]
  congr 1
  omega

theorem flatten_layout (ts : List Triangle) :
    ∀ (t : BuildNode), LeavesOk t → ∀ (nb tb j : ℕ),
      j < (flattenAux ts t nb tb).1.length →
      ((nodeAt (flattenAux ts t nb tb).1 j).count = 0 →
        j + 1 < (flattenAux ts t nb tb).1.length ∧
        nb + j + 1 < (nodeAt (flattenAux ts t nb tb).1 j).offset ∧
        (nodeAt (flattenAux ts t nb tb).1 j).offset < nb + (flattenAux ts t nb tb).1.length) ∧
      ((nodeAt (flattenAux ts t nb tb).1 j).count ≠ 0 →
        1 ≤ (nodeAt (flattenAux ts t nb tb).1 j).count ∧
        (nodeAt (flattenAux ts t nb tb).1 j).count ≤ 8) := by
  intro t
  induction t with
  | leaf aabb idxs =>
    intro hlv nb tb j hj
    simp only [flattenAux, List.length_cons, List.length_nil] at hj
    have hj0 : j = 0 := by omega
    subst hj0
    simp only [LeavesOk] at hlv
    simp only [flattenAux, nodeAt, List.getD_cons_zero]
    constructor
    · intro hc
      omega
    · intro _
      exact ⟨by omega, hlv.2⟩
  | branch aabb l r ihl ihr =>
    intro hlv nb tb j hj
    simp only [LeavesOk] at hlv
    obtain ⟨hlvl, hlvr⟩ := hlv
    simp only [flattenAux, List.length_cons, List.length_append] at hj ⊢
    set LF := flattenAux ts l (nb + 1) tb with hLF
    set RF := flattenAux ts r (nb + 1 + LF.1.length) (tb + LF.2.length) with hRF
    have hLpos : 1 ≤ LF.1.length := by
      rw [hLF, (flattenAux_len_tris ts l (nb + 1) tb).1]
      exact nodeCount_pos l
    have hRpos : 1 ≤ RF.1.length := by
      rw [hRF, (flattenAux_len_tris ts r _ _).1]
      exact nodeCount_pos r
    rcases Nat.lt_trichotomy j 0 with h0 | h0 | h0
    · omega
    · subst h0
      rw [nodeAt_cons_zero]
      constructor
      · intro _
        refine ⟨by omega, by dsimp only; omega, by dsimp only; omega⟩
      · intro hc
        exact absurd rfl hc
    · obtain ⟨i, hi⟩ : ∃ i, j = i + 1 := ⟨j - 1, by omega⟩
      subst hi
      by_cases hleft : i < LF.1.length
      · have hnode : nodeAt (⟨aabb, nb + 1 + LF.1.length, 0⟩ :: (LF.1 ++ RF.1)) (i + 1) =
            nodeAt LF.1 i := nodeAt_cons_append_left _ _ _ _ hleft
        rw [hnode]
        have ih := ihl hlvl (nb + 1) tb i (by rw [hLF] at hleft; exact hleft)
        rw [← hLF] at ih
        constructor
        · intro hc
          obtain ⟨ha, hb, hcc⟩ := ih.1 hc
          exact ⟨by omega, by omega, by omega⟩
        · exact ih.2
      · obtain ⟨i2, hi2⟩ : ∃ i2, i = LF.1.length + i2 := ⟨i - LF.1.length, by omega⟩
        subst hi2
        have hnode : nodeAt (⟨aabb, nb + 1 + LF.1.length, 0⟩ :: (LF.1 ++ RF.1))
            (LF.1.length + i2 + 1) = nodeAt RF.1 i2 := nodeAt_cons_append_right _ _ _ _
        rw [hnode]
        have hi2lt : i2 < RF.1.length := by omega
        have ih := ihr hlvr (nb + 1 + LF.1.length) (tb + LF.2.length) i2
          (by rw [hRF] at hi2lt; exact hi2lt)
        rw [← hRF] at ih
        constructor
        · intro hc
          obtain ⟨ha, hb, hcc⟩ := ih.1 hc
          exact ⟨by omega, by omega, by omega⟩
        · exact ih.2

theorem flatten_branch_cases (ts : List Triangle) (l r : BuildNode) (aabb : AABB)
    (nb tb j : ℕ)
    (hj : j < (flattenAux ts (BuildNode.branch aabb l r) nb tb).1.length) :
    (j = 0 ∧ nodeAt (flattenAux ts (BuildNode.branch aabb l r) nb tb).1 j =
      ⟨aabb, nb + 1 + (flattenAux ts l (nb + 1) tb).1.length, 0⟩) ∨
    (∃ i, j = i + 1 ∧ i < (flattenAux ts l (nb + 1) tb).1.length ∧
      nodeAt (flattenAux ts (BuildNode.branch aabb l r) nb tb).1 j =
        nodeAt (flattenAux ts l (nb + 1) tb).1 i) ∨
    (∃ i, j = (flattenAux ts l (nb + 1) tb).1.length + i + 1 ∧
      i < (flattenAux ts r (nb + 1 + (flattenAux ts l (nb + 1) tb).1.length)
        (tb + (flattenAux ts l (nb + 1) tb).2.length)).1.length ∧
      nodeAt (flattenAux ts (BuildNode.branch aabb l r) nb tb).1 j =
        nodeAt (flattenAux ts r (nb + 1 + (flattenAux ts l (nb + 1) tb).1.length)
          (tb + (flattenAux ts l (nb + 1) tb).2.length)).1 i) := by
  simp only [flattenAux, List.length_cons, List.length_append] at hj ⊢
  set LF := flattenAux ts l (nb + 1) tb with hLF
  set RF := flattenAux ts r (nb + 1 + LF.1.length) (tb + LF.2.length) with hRF
  rcases Nat.lt_trichotomy j 0 with h0 | h0 | h0
  · omega
  · subst h0
    exact Or.inl ⟨rfl, nodeAt_cons_zero _ _⟩
  · obtain ⟨i, hi⟩ : ∃ i, j = i + 1 := ⟨j - 1, by omega⟩
    subst hi
    by_cases hleft : i < LF.1.length
    · exact Or.inr (Or.inl ⟨i, rfl, hleft, nodeAt_cons_append_left _ _ _ _ hleft⟩)
    · obtain ⟨i2, hi2⟩ : ∃ i2, i = LF.1.length + i2 := ⟨i - LF.1.length, by omega⟩
      subst hi2
      exact Or.inr (Or.inr ⟨i2, rfl, by omega, nodeAt_cons_append_right _ _ _ _⟩)

theorem flatten_branch_lens (ts : List Triangle) (l r : BuildNode) (aabb : AABB) (nb tb : ℕ) :
    (flattenAux ts (BuildNode.branch aabb l r) nb tb).1.length =
      (flattenAux ts l (nb + 1) tb).1.length +
      (flattenAux ts r (nb + 1 + (flattenAux ts l (nb + 1) tb).1.length)
        (tb + (flattenAux ts l (nb + 1) tb).2.length)).1.length + 1 ∧
    (flattenAux ts (BuildNode.branch aabb l r) nb tb).2.length =
      (flattenAux ts l (nb + 1) tb).2.length +
      (flattenAux ts r (nb + 1 + (flattenAux ts l (nb + 1) tb).1.length)
        (tb + (flattenAux ts l (nb + 1) tb).2.length)).2.length := by
  constructor
  · simp [flattenAux]
  · simp [flattenAux]

theorem flatten_leaf_lens (ts : List Triangle) (idxs : List ℕ) (aabb : AABB) (nb tb : ℕ) :
    (flattenAux ts (BuildNode.leaf aabb idxs) nb tb).1.length = 1 ∧
    (flattenAux ts (BuildNode.leaf aabb idxs) nb tb).2.length = idxs.length ∧
    nodeAt (flattenAux ts (BuildNode.leaf aabb idxs) nb tb).1 0 = ⟨aabb, tb, idxs.length⟩ := by
  refine ⟨rfl, ?_, rfl⟩
  simp [flattenAux]

theorem flatten_tile (ts : List Triangle) :
    ∀ (t : BuildNode) (nb tb : ℕ),
      (∀ j, j < (flattenAux ts t nb tb).1.length →
        (nodeAt (flattenAux ts t nb tb).1 j).count ≠ 0 →
        tb ≤ (nodeAt (flattenAux ts t nb tb).1 j).offset ∧
        (nodeAt (flattenAux ts t nb tb).1 j).offset + (nodeAt (flattenAux ts t nb tb).1 j).count ≤
          tb + (flattenAux ts t nb tb).2.length) ∧
      (∀ j j2, j < (flattenAux ts t nb tb).1.length → j2 < (flattenAux ts t nb tb).1.length →
        j ≠ j2 → (nodeAt (flattenAux ts t nb tb).1 j).count ≠ 0 →
        (nodeAt (flattenAux ts t nb tb).1 j2).count ≠ 0 →
        (nodeAt (flattenAux ts t nb tb).1 j).offset + (nodeAt (flattenAux ts t nb tb).1 j).count ≤
          (nodeAt (flattenAux ts t nb tb).1 j2).offset ∨
        (nodeAt (flattenAux ts t nb tb).1 j2).offset + (nodeAt (flattenAux ts t nb tb).1 j2).count ≤
          (nodeAt (flattenAux ts t nb tb).1 j).offset) ∧
      (∀ k, k < (flattenAux ts t nb tb).2.length →
        ∃ j, j < (flattenAux ts t nb tb).1.length ∧
          (nodeAt (flattenAux ts t nb tb).1 j).count ≠ 0 ∧
          (nodeAt (flattenAux ts t nb tb).1 j).offset ≤ tb + k ∧
          tb + k < (nodeAt (flattenAux ts t nb tb).1 j).offset +
            (nodeAt (flattenAux ts t nb tb).1 j).count) := by
  intro t
  induction t with
  | leaf aabb idxs =>
    intro nb tb
    obtain ⟨h1, h2, h3⟩ := flatten_leaf_lens ts idxs aabb nb tb
    refine ⟨?_, ?_, ?_⟩
    · intro j hj hc
      have hj0 : j = 0 := by omega
      subst hj0
      rw [h3]
      dsimp only
      omega
    · intro j j2 hj hj2 hne hc hc2
      omega
    · intro k hk
      refine ⟨0, by omega, ?_, ?_, ?_⟩
      · rw [h3]
        dsimp only
        omega
      · rw [h3]
        dsimp only
        omega
      · rw [h3]
        dsimp only
        omega
  | branch aabb l r ihl ihr =>
    intro nb tb
    obtain ⟨hbl1, hbl2⟩ := flatten_branch_lens ts l r aabb nb tb
    obtain ⟨ihlB, ihlD, ihlC⟩ := ihl (nb + 1) tb
    obtain ⟨ihrB, ihrD, ihrC⟩ := ihr (nb + 1 + (flattenAux ts l (nb + 1) tb).1.length)
      (tb + (flattenAux ts l (nb + 1) tb).2.length)
    refine ⟨?_, ?_, ?_⟩
    · intro j hj hc
      rcases flatten_branch_cases ts l r aabb nb tb j hj with ⟨h0, hn⟩ | ⟨i, hi, hlt, hn⟩ | ⟨i, hi, hlt, hn⟩
      · rw [hn] at hc
        exact absurd rfl hc
      · rw [hn] at hc ⊢
        have := ihlB i hlt hc
        omega
      · rw [hn] at hc ⊢
        have := ihrB i hlt hc
        omega
    · intro j j2 hj hj2 hne hc hc2
      rcases flatten_branch_cases ts l r aabb nb tb j hj with ⟨h0, hn⟩ | ⟨i, hi, hlt, hn⟩ | ⟨i, hi, hlt, hn⟩
      · rw [hn] at hc
        exact absurd rfl hc
      · rcases flatten_branch_cases ts l r aabb nb tb j2 hj2 with ⟨h02, hn2⟩ | ⟨i2, hi2, hlt2, hn2⟩ | ⟨i2, hi2, hlt2, hn2⟩
        · rw [hn2] at hc2
          exact absurd rfl hc2
        · rw [hn, hn2]
          exact ihlD i i2 hlt hlt2 (by omega) (by rw [hn] at hc; exact hc) (by rw [hn2] at hc2; exact hc2)
        · rw [hn, hn2]
          left
          have hb1 := ihlB i hlt (by rw [hn] at hc; exact hc)
          have hb2 := ihrB i2 hlt2 (by rw [hn2] at hc2; exact hc2)
          omega
      · rcases flatten_branch_cases ts l r aabb nb tb j2 hj2 with ⟨h02, hn2⟩ | ⟨i2, hi2, hlt2, hn2⟩ | ⟨i2, hi2, hlt2, hn2⟩
        · rw [hn2] at hc2
          exact absurd rfl hc2
        · rw [hn, hn2]
          right
          have hb1 := ihrB i hlt (by rw [hn] at hc; exact hc)
          have hb2 := ihlB i2 hlt2 (by rw [hn2] at hc2; exact hc2)
          omega
        · rw [hn, hn2]
          exact ihrD i i2 hlt hlt2 (by omega) (by rw [hn] at hc; exact hc) (by rw [hn2] at hc2; exact hc2)
    · intro k hk
      by_cases hkl : k < (flattenAux ts l (nb + 1) tb).2.length
      · obtain ⟨j, hjlt, hc, ho1, ho2⟩ := ihlC k hkl
        have hjb : j + 1 < (flattenAux ts (BuildNode.branch aabb l r) nb tb).1.length := by omega
        rcases flatten_branch_cases ts l r aabb nb tb (j + 1) hjb with ⟨h0, hn⟩ | ⟨i, hi, hlt, hn⟩ | ⟨i, hi, hlt, hn⟩
        · omega
        · have hij : i = j := by omega
          subst hij
          refine ⟨i + 1, hjb, ?_, ?_, ?_⟩
          · rw [hn]
            exact hc
          · rw [hn]
            exact ho1
          · rw [hn]
            exact ho2
        · omega
      · obtain ⟨j, hjlt, hc, ho1, ho2⟩ := ihrC (k - (flattenAux ts l (nb + 1) tb).2.length) (by omega)
        have hjb : (flattenAux ts l (nb + 1) tb).1.length + j + 1 <
            (flattenAux ts (BuildNode.branch aabb l r) nb tb).1.length := by omega
        rcases flatten_branch_cases ts l r aabb nb tb ((flattenAux ts l (nb + 1) tb).1.length + j + 1) hjb
          with ⟨h0, hn⟩ | ⟨i, hi, hlt, hn⟩ | ⟨i, hi, hlt, hn⟩
        · omega
        · omega
        · have hij : i = j := by omega
          subst hij
          refine ⟨(flattenAux ts l (nb + 1) tb).1.length + i + 1, hjb, ?_, ?_, ?_⟩
          · rw [hn]
            exact hc
          · rw [hn]
            omega
          · rw [hn]
            omega

theorem map_getD_range (ts : List Triangle) :
    (List.range ts.length).map (fun i => ts.getD i defTriangle) = ts := by
  apply List.ext_getElem
  · simp
  · intro i h1 h2
    simp only [List.getElem_map, List.getElem_range, List.getD]
    rw [List.get?_eq_getElem?, List.getElem?_eq_getElem h2]
    rfl

theorem build_linear_bvh_perm (ts : List Triangle) :
    (MapMesh.build_linear_bvh ts).1.Perm ts := by
  have hperm := recursive_build_perm ts (List.range ts.length).length (List.range ts.length)
    le_rfl
  have htris := (flattenAux_len_tris ts (recursive_build ts (List.range ts.length)) 0 0).2
  simp only [MapMesh.build_linear_bvh]
  rw [htris]
  have hmap := List.Perm.map (fun i => ts.getD i defTriangle) hperm
  rw [map_getD_range ts] at hmap
  exact hmap

/-- C1: `build_linear_bvh` stores a permutation of the input triangle list in its triangle array, and every leaf node references a contiguous in-bounds tile of 1 to 8 triangles; the tiles are disjoint and jointly cover the whole triangle array. -/
theorem build_linear_bvh_coverage (ts : List Triangle) : BuildBvhCoverage ts := by
  obtain ⟨tB, tD, tC⟩ := flatten_tile ts (recursive_build ts (List.range ts.length)) 0 0
  simp only [BuildBvhCoverage, MapMesh.build_linear_bvh]
  refine ⟨?_, ?_, ?_, ?_⟩
  · exact build_linear_bvh_perm ts
  · intro j hj hc
    have := tB j hj hc
    omega
  · intro j j2 hj hj2 hne hc hc2
    exact tD j j2 hj hj2 hne hc hc2
  · intro k hk
    obtain ⟨j, h1, h2, h3, h4⟩ := tC k hk
    exact ⟨j, h1, h2, by omega, by omega⟩

/-- C5: in the flat array produced by `build_linear_bvh` on a nonempty input, the root is at index 0, every branch node's left child is the next array slot and its stored offset points to a later in-bounds slot (the right child), and every leaf covers between 1 and 8 triangles. -/
theorem build_linear_bvh_layout (ts : List Triangle) (h : ts ≠ []) : BuildBvhLayout ts := by
  have hne : List.range ts.length ≠ [] := by
    intro hc
    have h2 := congrArg List.length hc
    simp only [List.length_range, List.length_nil] at h2
    exact h (List.length_eq_zero.mp h2)
  have hlv := recursive_build_leavesOk ts (List.range ts.length).length
    (List.range ts.length) le_rfl hne
  have hnodes := (flattenAux_len_tris ts (recursive_build ts (List.range ts.length)) 0 0).1
  simp only [BuildBvhLayout, MapMesh.build_linear_bvh]
  constructor
  · rw [hnodes]
    have := nodeCount_pos (recursive_build ts (List.range ts.length))
    omega
  · intro j hj
    have hl := flatten_layout ts (recursive_build ts (List.range ts.length)) hlv 0 0 j hj
    constructor
    · intro hc
      obtain ⟨a, b, c⟩ := hl.1 hc
      exact ⟨a, by omega, by omega⟩
    · exact hl.2

theorem getD_set_self (l : List Mat4) (i : ℕ) (a d : Mat4) (h : i < l.length) :
    (l.set i a).getD i d = a := by
  rw [List.getD_eq_getElem?_getD]
  rw [List.getElem?_set_self (by simpa using h)]
  rfl

theorem getD_set_ne (l : List Mat4) (i j : ℕ) (a d : Mat4) (h : i ≠ j) :
    (l.set i a).getD j d = l.getD j d := by
  rw [List.getD_eq_getElem?_getD, List.getElem?_set_ne h, ← List.getD_eq_getElem?_getD]

/-- The value written for one `joint_map` entry by the resolution loop. -/

theorem foldl_fn_congr (g1 g2 : List Mat4 → ℕ × String → List Mat4)
    (h : ∀ a p, g1 a p = g2 a p) :
    ∀ (l : List (ℕ × String)) (acc : List Mat4), l.foldl g1 acc = l.foldl g2 acc := by
  intro l
  induction l with
  | nil => intro acc; rfl
  | cons q rest ih =>
    intro acc
    simp only [List.foldl_cons, h, ih]

theorem jointEntryStep_eq (ibms : List Mat4) (bt : String → Option Mat4)
    (acc : List Mat4) (p : ℕ × String) :
    jointEntryStep ibms bt acc p = acc.set p.1 (jointValue ibms bt p) := by
  unfold jointEntryStep jointValue
  cases bt p.2 with
  | none => rfl
  | some t => rfl

theorem foldl_set_getD_notmem (f : ℕ × String → Mat4) :
    ∀ (jm : List (ℕ × String)) (acc : List Mat4) (idx : ℕ),
      idx ∉ jm.map Prod.fst →
      (jm.foldl (fun a p => a.set p.1 (f p)) acc).getD idx 1 = acc.getD idx 1 := by
  intro jm
  induction jm with
  | nil =>
    intro acc idx _
    rfl
  | cons q rest ih =>
    intro acc idx hidx
    simp only [List.map_cons, List.mem_cons] at hidx
    push_neg at hidx
    simp only [List.foldl_cons]
    rw [ih _ _ hidx.2]
    exact getD_set_ne _ _ _ _ _ hidx.1.symm

theorem foldl_set_getD_mem (f : ℕ × String → Mat4) :
    ∀ (jm : List (ℕ × String)) (acc : List Mat4) (idx : ℕ) (name : String),
      (jm.map Prod.fst).Nodup → (idx, name) ∈ jm → idx < acc.length →
      (jm.foldl (fun a p => a.set p.1 (f p)) acc).getD idx 1 = f (idx, name) := by
  intro jm
  induction jm with
  | nil =>
    intro acc idx name _ hmem
    exact absurd hmem (List.not_mem_nil _)
  | cons q rest ih =>
    intro acc idx name hnd hmem hlt
    simp only [List.map_cons, List.nodup_cons] at hnd
    simp only [List.foldl_cons]
    rcases List.mem_cons.mp hmem with heq | hmem2
    · subst heq
      rw [foldl_set_getD_notmem f rest _ idx (by simpa using hnd.1)]
      exact getD_set_self _ _ _ _ hlt
    · have hq : q.1 ≠ idx := by
        intro hc
        apply hnd.1
        rw [hc]
        exact List.mem_map.mpr ⟨(idx, name), hmem2, rfl⟩
      refine ih _ idx name hnd.2 hmem2 ?_
      rw [List.length_set]
      exact hlt

/-- C9: after the joint-resolution loop, the matrix of a joint listed in the joint map is `bone_transform * inverse_bind_matrix` when the bone transform is present and `fallback * inverse_bind_matrix` otherwise, and every slot not listed keeps the identity. -/
theorem computeJointMatrices_spec (ibms : List Mat4) (jointMap : List (ℕ × String))
    (bt : String → Option Mat4) (idx : ℕ) (name : String)
    (hnd : (jointMap.map Prod.fst).Nodup) (hmem : (idx, name) ∈ jointMap)
    (hlt : idx < ibms.length) : JointMatrixSpec ibms jointMap bt idx name := by
  unfold JointMatrixSpec computeJointMatrices
  rw [foldl_fn_congr (jointEntryStep ibms bt) (fun a p => a.set p.1 (jointValue ibms bt p))
    (jointEntryStep_eq ibms bt)]
  rw [foldl_set_getD_mem (jointValue ibms bt) jointMap _ idx name hnd hmem
    (by simpa using hlt)]
  simp only [jointValue, fallbackTransform]

/-- C6: when the incoming state matches the cached one (same weapon, strength within 0.01, position and velocity within the squared-distance tolerance 0.01), `update_core` returns the cached path and detonation point unchanged. -/
theorem update_core_cache_hit (mesh : Option MapMesh) (active : ActiveGrenadeType)
    (floorZ : ℚ) (p : List Vec3) (last current : TrajectoryState)
    (hw : last.weapon_id = current.weapon_id)
    (hs : |last.throw_strength - current.throw_strength| ≤ 1/100)
    (hp : (last.position.sub current.position).normSq ≤ 1/100)
    (hv : (last.velocity.sub current.velocity).normSq ≤ 1/100) :
    update_core mesh active floorZ (some p) (some last) current = (some p, some last) := by
  have hsim : last.is_similar current = true := by
    unfold TrajectoryState.is_similar
    rw [if_neg (by simp [hw]), if_neg (not_lt.mpr hs), if_neg (not_lt.mpr hp),
      if_neg (not_lt.mpr hv)]
  unfold update_core
  simp [hsim]

/-- Witness for C6 at a concrete cached state. -/
theorem update_core_cache_hit_witness :
    (zeroState.weapon_id = zeroState.weapon_id ∧
      |zeroState.throw_strength - zeroState.throw_strength| ≤ 1/100 ∧
      (zeroState.position.sub zeroState.position).normSq ≤ 1/100 ∧
      (zeroState.velocity.sub zeroState.velocity).normSq ≤ 1/100) ∧
    update_core none ActiveGrenadeType.he 0 (some [⟨1, 2, 3⟩]) (some zeroState) zeroState =
      (some [⟨1, 2, 3⟩], some zeroState) :=
  ⟨⟨rfl, by with_unfolding_all decide, by with_unfolding_all decide,
     by with_unfolding_all decide⟩,
   update_core_cache_hit none ActiveGrenadeType.he 0 [⟨1, 2, 3⟩] zeroState zeroState rfl
     (by with_unfolding_all decide) (by with_unfolding_all decide)
     (by with_unfolding_all decide)⟩

/-- Witness for C8 at a concrete mesh and both degenerate inputs. -/
theorem check_collision_ray_degenerate_none_witness :
    (((⟨0, 0, 0⟩ : Vec3).sub ⟨0, 0, 0⟩).norm < 1/10000 ∨
      (MapMesh.mk [] []).nodes = []) ∧
    (MapMesh.mk [] []).check_collision_ray ⟨0, 0, 0⟩ ⟨0, 0, 0⟩ = none :=
  ⟨Or.inr rfl, check_collision_ray_degenerate_none (MapMesh.mk [] []) ⟨0, 0, 0⟩ ⟨0, 0, 0⟩ (Or.inr rfl)⟩

/-- Witness for C2's amended bound at a concrete simulation. -/
theorem simulate_path_det_bound_witness :
    ActiveGrenadeType.he.get_detonation_time = some (11/10) ∧
    ((simulate_path none ActiveGrenadeType.he ⟨0, 0, 0⟩ ⟨0, 0, 0⟩ 0).length + 1 ≤
      2 * max 1 (⌈(11/10 : ℚ) * 64⌉.toNat) ∧
    (simulate_path none ActiveGrenadeType.he ⟨0, 0, 0⟩ ⟨0, 0, 0⟩ 0).length ≤ 260) :=
  ⟨rfl, simulate_path_det_bound none ActiveGrenadeType.he ⟨0, 0, 0⟩ ⟨0, 0, 0⟩ 0 (11/10) rfl⟩

/-- Witness for C7's amended split specification on a concrete 9-triangle input. -/
theorem recursive_build_split_witness :
    8 < (List.range 9).length ∧ RecursiveBuildSplitSpec ts9 (List.range 9) :=
  ⟨by decide, recursive_build_split ts9 (List.range 9) (by decide)⟩

/-- Witness for C5 on a concrete 9-triangle input. -/
theorem build_linear_bvh_layout_witness :
    ([floorTri] : List Triangle) ≠ [] ∧ BuildBvhLayout [floorTri] :=
  ⟨List.cons_ne_nil _ _, build_linear_bvh_layout [floorTri] (List.cons_ne_nil _ _)⟩

set_option maxRecDepth 100000 in
/-- Witness for C4: a concrete downward ray hitting the floor mesh built by `build_linear_bvh`, whose well-formedness is discharged concretely. -/
theorem check_collision_ray_backface_witness :
    MeshWf floorMesh ∧
    (((⟨0, 0, -10⟩ : Vec3).sub ⟨0, 0, 10⟩).scale
        (1 / ((⟨0, 0, -10⟩ : Vec3).sub ⟨0, 0, 10⟩).norm)).dot ⟨0, 0, 1⟩ < 0 := by
  have hwf : MeshWf floorMesh := by
    intro t ht
    have hmem : t ∈ [floorTri] := (build_linear_bvh_perm [floorTri]).mem_iff.mp ht
    rcases List.mem_singleton.mp hmem with rfl
    exact ⟨1/400000000, by norm_num, by with_unfolding_all decide⟩
  refine ⟨hwf, ?_⟩
  exact check_collision_ray_backface floorMesh ⟨0, 0, 10⟩ ⟨0, 0, -10⟩ (1/2) ⟨0, 0, 0⟩
    ⟨0, 0, 1⟩ hwf (by with_unfolding_all decide)

/-- Witness for C9 on a concrete joint map. -/
theorem computeJointMatrices_spec_witness :
    (([(0, "head_0")] : List (ℕ × String)).map Prod.fst).Nodup ∧
    ((0 : ℕ), "head_0") ∈ ([(0, "head_0")] : List (ℕ × String)) ∧
    (0 : ℕ) < ([1] : List Mat4).length ∧
    JointMatrixSpec [1] [(0, "head_0")] (fun _ => none) 0 "head_0" :=
  ⟨by simp, by simp, by simp,
   computeJointMatrices_spec [1] [(0, "head_0")] (fun _ => none) 0 "head_0"
     (by simp) (by simp) (by simp)⟩
